import Mathlib

/-!
Shallow embedding of `satellite_utils.py` (Satellite-imagery-utils).

The two computational functions of the module are embedded here:
`get_square_around_point` over the reals (the trigonometric conversion of
meters to degrees of longitude), and `get_bbox_of_given_size` /
`get_field_pixels` over the rationals (pure coordinate arithmetic).
Python float arithmetic is idealised as exact arithmetic; a Python division
whose divisor can be zero (raising ZeroDivisionError) is modelled by an
`Option` result that is `none` exactly when the divisor is zero.
The external client library is injected as capabilities:
`bbox_to_dimensions` is a parameter `dims : BBox → ℕ → ℕ × ℕ`, and the
shapely strict-containment test `Polygon.contains` is a parameter of the
`Polygon` structure.
-/

/-- The module-level constant `m_to_deg = 111111` of `satellite_utils.py`. -/
def m_to_deg : ℝ := 111111

/-- `np.deg2rad`: degrees to radians. -/
noncomputable def deg2rad (d : ℝ) : ℝ := d * (Real.pi / 180)

/-- Embedding of `get_square_around_point(lon, lat, m)` (lines 11-39).
`half_side = m / 2`;
`x_min = lon - half_side / (m_to_deg * cos(deg2rad(lat)))`, likewise
`x_max` with `+`; `y_min = lat - half_side / m_to_deg`, likewise `y_max`.
Returns `[x_min, y_min, x_max, y_max]`, i.e. the order
`[min_lon, min_lat, max_lon, max_lat]`, here as a 4-tuple.
The divisor `m_to_deg * cos(deg2rad lat)` can be zero, in which case the
Python division raises; this is the `none` case. The divisor `m_to_deg`
of the latitude axis is the nonzero literal `111111`, so that division
never raises and is kept as plain division. -/
noncomputable def get_square_around_point (lon lat m : ℝ) :
    Option (ℝ × ℝ × ℝ × ℝ) :=
  let half_side := m / 2
  let denom := m_to_deg * Real.cos (deg2rad lat)
  if denom = 0 then none
  else
    some (lon - half_side / denom, lat - half_side / m_to_deg,
          lon + half_side / denom, lat + half_side / m_to_deg)

lemma m_to_deg_pos : (0 : ℝ) < m_to_deg := by
  unfold m_to_deg; norm_num

lemma cos_deg2rad_pos {lat : ℝ} (h1 : -90 < lat) (h2 : lat < 90) :
    0 < Real.cos (deg2rad lat) := by
  apply Real.cos_pos_of_mem_Ioo
  have hpi : (0 : ℝ) < Real.pi / 180 := by positivity
  constructor
  · have := mul_lt_mul_of_pos_right h1 hpi
    calc -(Real.pi / 2) = -90 * (Real.pi / 180) := by ring
    _ < lat * (Real.pi / 180) := this
  · have := mul_lt_mul_of_pos_right h2 hpi
    calc lat * (Real.pi / 180) < 90 * (Real.pi / 180) := this
    _ = Real.pi / 2 := by ring

lemma get_square_around_point_eq (lon lat m : ℝ)
    (h : m_to_deg * Real.cos (deg2rad lat) ≠ 0) :
    get_square_around_point lon lat m =
      some (lon - (m / 2) / (m_to_deg * Real.cos (deg2rad lat)),
            lat - (m / 2) / m_to_deg,
            lon + (m / 2) / (m_to_deg * Real.cos (deg2rad lat)),
            lat + (m / 2) / m_to_deg) := by
  simp only [get_square_around_point]
  rw [if_neg h]

/-- C1: for every longitude, every latitude strictly between -90 and 90,
and every `m > 0`, `get_square_around_point` succeeds and returns
`(min_lon, min_lat, max_lon, max_lat)` with `min_lon < max_lon`,
`min_lat < max_lat`, and the box centered at the input point:
`(min_lon + max_lon) / 2 = lon` and `(min_lat + max_lat) / 2 = lat`. -/
theorem get_square_around_point_centered (lon lat m : ℝ)
    (h1 : -90 < lat) (h2 : lat < 90) (hm : 0 < m) :
    ∃ x_min y_min x_max y_max,
      get_square_around_point lon lat m = some (x_min, y_min, x_max, y_max) ∧
      x_min < x_max ∧ y_min < y_max ∧
      (x_min + x_max) / 2 = lon ∧ (y_min + y_max) / 2 = lat := by
  have hcos := cos_deg2rad_pos h1 h2
  have hden : 0 < m_to_deg * Real.cos (deg2rad lat) :=
    mul_pos m_to_deg_pos hcos
  refine ⟨_, _, _, _, get_square_around_point_eq lon lat m (ne_of_gt hden),
    ?_, ?_, ?_, ?_⟩
  · have : 0 < (m / 2) / (m_to_deg * Real.cos (deg2rad lat)) :=
      div_pos (by linarith) hden
    linarith
  · have : 0 < (m / 2) / m_to_deg := div_pos (by linarith) m_to_deg_pos
    linarith
  · ring
  · ring

/-- Witness for C1 at `lon = 0`, `lat = 0`, `m = 2`. -/
theorem get_square_around_point_centered_witness :
    (-90 : ℝ) < 0 ∧ (0 : ℝ) < 90 ∧ (0 : ℝ) < 2 ∧
    (∃ x_min y_min x_max y_max,
      get_square_around_point 0 0 2 = some (x_min, y_min, x_max, y_max) ∧
      x_min < x_max ∧ y_min < y_max ∧
      (x_min + x_max) / 2 = 0 ∧ (y_min + y_max) / 2 = 0) :=
  ⟨by norm_num, by norm_num, by norm_num,
    get_square_around_point_centered 0 0 2 (by norm_num) (by norm_num)
      (by norm_num)⟩

/-- C4: at latitude exactly `90` or exactly `-90`, the divisor
`m_to_deg * cos(deg2rad lat)` is zero, so `get_square_around_point` fails
with a division-by-zero error (modelled as `none`); it does not return a
clamped box. -/
theorem get_square_around_point_pole_fails (lon m : ℝ) :
    get_square_around_point lon 90 m = none ∧
    get_square_around_point lon (-90) m = none := by
  have h90 : deg2rad 90 = Real.pi / 2 := by unfold deg2rad; ring
  have hm90 : deg2rad (-90) = -(Real.pi / 2) := by unfold deg2rad; ring
  constructor
  · simp only [get_square_around_point]
    rw [h90, Real.cos_pi_div_two, mul_zero, if_pos rfl]
  · simp only [get_square_around_point]
    rw [hm90, Real.cos_neg, Real.cos_pi_div_two, mul_zero, if_pos rfl]

/-- C9: at latitude `0` the longitude half-width equals the latitude
half-width (the returned box has `max_lon - min_lon = max_lat - min_lat`),
and `get_square_around_point 0 0 111111` returns exactly
`(-1/2, -1/2, 1/2, 1/2)`, hence approximately `[-0.5, -0.5, 0.5, 0.5]`. -/
theorem get_square_around_point_equator (lon m : ℝ) :
    (∃ x_min y_min x_max y_max,
      get_square_around_point lon 0 m = some (x_min, y_min, x_max, y_max) ∧
      x_max - x_min = y_max - y_min) ∧
    get_square_around_point 0 0 111111 =
      some (-(1 / 2), -(1 / 2), 1 / 2, 1 / 2) := by
  have hz : deg2rad 0 = 0 := by unfold deg2rad; ring
  have hcos : Real.cos (deg2rad 0) = 1 := by rw [hz, Real.cos_zero]
  have hden : m_to_deg * Real.cos (deg2rad 0) = m_to_deg := by
    rw [hcos, mul_one]
  have hne : m_to_deg ≠ 0 := ne_of_gt m_to_deg_pos
  have hne0 : m_to_deg * Real.cos (deg2rad 0) ≠ 0 := by rw [hden]; exact hne
  constructor
  · refine ⟨_, _, _, _, get_square_around_point_eq lon 0 m hne0, ?_⟩
    rw [hden]; ring
  · rw [get_square_around_point_eq 0 0 111111 hne0, hden]
    unfold m_to_deg
    norm_num

/-- A `sentinelhub.BBox` in CRS WGS84, reduced to the four coordinates the
code reads and writes (`min_x`, `min_y`, `max_x`, `max_y`). Python float
coordinates are idealised as rationals here; `get_bbox_of_given_size` and
`get_field_pixels` perform only field arithmetic on them. -/
structure BBox where
  min_x : ℚ
  min_y : ℚ
  max_x : ℚ
  max_y : ℚ
deriving DecidableEq

/-- Embedding of `get_bbox_of_given_size(coords, pix, resolution)`
(lines 41-74). The external `bbox_to_dimensions` of the client library is
an injected capability `dims : BBox → ℕ → ℕ × ℕ`; per its contract it
yields positive pixel dimensions, so the Python divisions
`pix[0] / box_size[0]` and `pix[1] / box_size[1]` never raise and are kept
as plain (total) division.
`coords` is the 4-tuple `[x_min, y_min, x_max, y_max]`, carried as a
`BBox` record since the first statement of the body wraps it into one
unchanged. -/
def get_bbox_of_given_size (dims : BBox → ℕ → ℕ × ℕ) (coords : BBox)
    (pix : ℕ × ℕ) (resolution : ℕ) : BBox :=
  let box := coords
  let box_size := dims box resolution
  if box_size = pix then box
  else
    let x_max := (coords.max_x - coords.min_x) * (pix.1 : ℚ) / (box_size.1 : ℚ)
      + coords.min_x
    let y_max := (coords.max_y - coords.min_y) * (pix.2 : ℚ) / (box_size.2 : ℚ)
      + coords.min_y
    ⟨coords.min_x, coords.min_y, x_max, y_max⟩

/-- Modelled from the spec's words for comparison with the source
definition: if the natural dimensions already equal the target grid the
box is returned unchanged, otherwise
`new_max = min + (old_max - min) * target_dim / natural_dim`
independently per axis, with `min_lon` and `min_lat` left fixed. -/
def snap_to_pixel_grid_spec (dims : BBox → ℕ → ℕ × ℕ) (box : BBox)
    (target_grid : ℕ × ℕ) (resolution : ℕ) : BBox :=
  let natural := dims box resolution
  if natural = target_grid then box
  else
    ⟨box.min_x, box.min_y,
     box.min_x + (box.max_x - box.min_x) * (target_grid.1 : ℚ) / (natural.1 : ℚ),
     box.min_y + (box.max_y - box.min_y) * (target_grid.2 : ℚ) / (natural.2 : ℚ)⟩

/-- C2: `get_bbox_of_given_size` agrees with the specification: when the
injected dimension capability maps the box to `pix` the box is returned
unchanged, otherwise the minima are kept and each maximum is rescaled to
`min + (old_max - min) * target_dim / natural_dim` on its own axis. -/
theorem get_bbox_of_given_size_matches_spec (dims : BBox → ℕ → ℕ × ℕ)
    (coords : BBox) (pix : ℕ × ℕ) (resolution : ℕ) :
    get_bbox_of_given_size dims coords pix resolution =
      snap_to_pixel_grid_spec dims coords pix resolution := by
  simp only [get_bbox_of_given_size, snap_to_pixel_grid_spec]
  by_cases h : dims coords resolution = pix
  · rw [if_pos h, if_pos h]
  · rw [if_neg h, if_neg h]
    simp only [BBox.mk.injEq, eq_self_iff_true, true_and]
    exact ⟨by ring, by ring⟩

/-- The box used in the concrete instances below: the unit square at the
origin. -/
def box0 : BBox := ⟨0, 0, 1, 1⟩

/-- A dimension capability that returns `(5, 5)` for every box and
resolution. It is deterministic (it is a function) and monotonic in the
box extent (constant). -/
def dimsConst : BBox → ℕ → ℕ × ℕ := fun _ _ => (5, 5)

/-- Monotonicity in the box extent of an injected dimension capability,
as in the spec's contract for `dimensions_for`: widening the extent on
both axes does not shrink either pixel dimension. -/
def MonotoneInExtent (dims : BBox → ℕ → ℕ × ℕ) : Prop :=
  ∀ b b' : BBox, ∀ r : ℕ,
    b.max_x - b.min_x ≤ b'.max_x - b'.min_x →
    b.max_y - b.min_y ≤ b'.max_y - b'.min_y →
    (dims b r).1 ≤ (dims b' r).1 ∧ (dims b r).2 ≤ (dims b' r).2

/-- Counterexample to C5 as stated: the constant capability `(5, 5)` is
deterministic and monotonic in the box extent, yet applying
`get_bbox_of_given_size` twice to the unit box with target grid `(3, 3)`
yields a box whose dimension computation is `(5, 5) ≠ (3, 3)`. -/
theorem bbox_twice_not_target_for_const_dims :
    MonotoneInExtent dimsConst ∧
      dimsConst
        (get_bbox_of_given_size dimsConst
          (get_bbox_of_given_size dimsConst box0 (3, 3) 10) (3, 3) 10) 10
        ≠ (3, 3) := by
  constructor
  · intro b b' r _ _
    exact ⟨le_refl _, le_refl _⟩
  · simp [dimsConst]

/-- C5 (amended): if the injected dimension capability maps the
once-snapped box to `pix` (exact rescaling), then applying
`get_bbox_of_given_size` twice with the same `pix` and resolution yields a
box whose dimension computation equals `pix`; determinism and
monotonicity of the capability alone do not guarantee this. -/
theorem get_bbox_of_given_size_idempotent (dims : BBox → ℕ → ℕ × ℕ)
    (coords : BBox) (pix : ℕ × ℕ) (resolution : ℕ)
    (h : dims (get_bbox_of_given_size dims coords pix resolution) resolution
      = pix) :
    dims (get_bbox_of_given_size dims
      (get_bbox_of_given_size dims coords pix resolution) pix resolution)
      resolution = pix := by
  have hstep : get_bbox_of_given_size dims
      (get_bbox_of_given_size dims coords pix resolution) pix resolution
      = get_bbox_of_given_size dims coords pix resolution := by
    generalize hb : get_bbox_of_given_size dims coords pix resolution = b at h
    simp only [get_bbox_of_given_size]
    rw [if_pos h]
  rw [hstep, h]

/-- A dimension capability that returns `(2, 2)` everywhere; it maps the
snapped unit box to the target grid `(2, 2)` exactly. -/
def dimsTwo : BBox → ℕ → ℕ × ℕ := fun _ _ => (2, 2)

/-- Witness for the amended C5 at the unit box, target grid `(2, 2)`,
resolution `10`, with the capability `dimsTwo`. -/
theorem get_bbox_of_given_size_idempotent_witness :
    dimsTwo (get_bbox_of_given_size dimsTwo box0 (2, 2) 10) 10 = (2, 2) ∧
      dimsTwo (get_bbox_of_given_size dimsTwo
        (get_bbox_of_given_size dimsTwo box0 (2, 2) 10) (2, 2) 10) 10
        = (2, 2) :=
  ⟨rfl, get_bbox_of_given_size_idempotent dimsTwo box0 (2, 2) 10 rfl⟩

/-- A numpy image as `get_field_pixels` sees it: `rows = img.shape[0]` and
`cols = img.shape[1]`; any further axes of the shape and the pixel values
themselves are carried along so that dependence (or independence) on them
can be stated, but the function body reads only `rows` and `cols`. -/
structure Image where
  rows : ℕ
  cols : ℕ
  channels : List ℕ
  data : ℕ → ℕ → ℕ → ℚ

/-- A shapely polygon reduced to the injected capability the code calls:
`field.contains(Point(x, y))`, the strict-interior containment test. -/
structure Polygon where
  contains : ℚ → ℚ → Bool

/-- Embedding of `get_field_pixels(img, bbox, field)` (lines 156-187).
The mask has shape `(img.shape[0], img.shape[1])`; for every index
`(i, j)` of the mask the pixel center is
`x = bbox.min_x + (2i+1) * (max_x - min_x) / (2 * n_x)` and
`y = bbox.min_y + (2j+1) * (max_y - min_y) / (2 * n_y)`, and the entry is
`field.contains(Point(x, y))`. The row-major `np.ndindex` fill of the
zero-initialised array is rendered as a nested map over the index
ranges. -/
def get_field_pixels (img : Image) (bbox : BBox) (field : Polygon) :
    List (List Bool) :=
  let n_x := img.rows
  let n_y := img.cols
  let x_len := bbox.max_x - bbox.min_x
  let y_len := bbox.max_y - bbox.min_y
  (List.range n_x).map (fun (i : ℕ) =>
    (List.range n_y).map (fun (j : ℕ) =>
      field.contains
        (bbox.min_x + (2 * (i : ℚ) + 1) * x_len / (2 * (n_x : ℚ)))
        (bbox.min_y + (2 * (j : ℚ) + 1) * y_len / (2 * (n_y : ℚ)))))

/-- C8: the mask always has exactly `img.rows` rows, each of exactly
`img.cols` entries, whatever the bounding box and the polygon. -/
theorem get_field_pixels_shape (img : Image) (bbox : BBox) (field : Polygon) :
    (get_field_pixels img bbox field).length = img.rows ∧
    ∀ row ∈ get_field_pixels img bbox field, row.length = img.cols := by
  constructor
  · simp [get_field_pixels]
  · intro row hrow
    simp only [get_field_pixels, List.mem_map, List.mem_range] at hrow
    obtain ⟨i, _, rfl⟩ := hrow
    simp

/-- C3: for indices in range, the mask entry at `(i, j)` equals the
containment test at the pixel center, with row index `i` on the longitude
axis and column index `j` on the latitude axis. -/
theorem get_field_pixels_entry (img : Image) (bbox : BBox) (field : Polygon)
    (i j : ℕ) (hi : i < img.rows) (hj : j < img.cols) :
    ((get_field_pixels img bbox field).getD i []).getD j false =
      field.contains
        (bbox.min_x +
          (2 * (i : ℚ) + 1) * (bbox.max_x - bbox.min_x) / (2 * (img.rows : ℚ)))
        (bbox.min_y +
          (2 * (j : ℚ) + 1) * (bbox.max_y - bbox.min_y) / (2 * (img.cols : ℚ)))
    := by
  simp [get_field_pixels, List.getD_eq_getElem?_getD, hi, hj]

/-- The image of shape `(1, 1)` used in concrete instances. -/
def img1x1 : Image := ⟨1, 1, [], fun _ _ _ => 0⟩

/-- A polygon whose strict interior is the half-plane `x < 1/2`. -/
def polyHalf : Polygon := ⟨fun x _ => decide (x < 1 / 2)⟩

/-- Witness for C3 at the `(1, 1)` image, the unit box and `polyHalf`, at
index `(0, 0)`. -/
theorem get_field_pixels_entry_witness :
    0 < img1x1.rows ∧ 0 < img1x1.cols ∧
    ((get_field_pixels img1x1 box0 polyHalf).getD 0 []).getD 0 false =
      polyHalf.contains
        (box0.min_x +
          (2 * ((0 : ℕ) : ℚ) + 1) * (box0.max_x - box0.min_x)
            / (2 * (img1x1.rows : ℚ)))
        (box0.min_y +
          (2 * ((0 : ℕ) : ℚ) + 1) * (box0.max_y - box0.min_y)
            / (2 * (img1x1.cols : ℚ))) :=
  ⟨by decide, by decide,
    get_field_pixels_entry img1x1 box0 polyHalf 0 0 (by decide) (by decide)⟩

lemma center_mem_open {a b : ℚ} (hab : a < b) {i n : ℕ} (hi : i < n) :
    a < a + (2 * (i : ℚ) + 1) * (b - a) / (2 * (n : ℚ)) ∧
    a + (2 * (i : ℚ) + 1) * (b - a) / (2 * (n : ℚ)) < b := by
  have hn : (0 : ℚ) < (n : ℚ) := by
    exact_mod_cast Nat.pos_of_ne_zero (by omega)
  have h2n : (0 : ℚ) < 2 * (n : ℚ) := by linarith
  have hnum : (0 : ℚ) < 2 * (i : ℚ) + 1 := by positivity
  have hip : (i : ℚ) + 1 ≤ (n : ℚ) := by exact_mod_cast hi
  have hba : (0 : ℚ) < b - a := by linarith
  constructor
  · have : 0 < (2 * (i : ℚ) + 1) * (b - a) / (2 * (n : ℚ)) := by positivity
    linarith
  · have : (2 * (i : ℚ) + 1) * (b - a) / (2 * (n : ℚ)) < b - a := by
      rw [div_lt_iff₀ h2n]
      nlinarith
    linarith

lemma center_mem_closed {a b : ℚ} (hab : a ≤ b) {i n : ℕ} (hi : i < n) :
    a ≤ a + (2 * (i : ℚ) + 1) * (b - a) / (2 * (n : ℚ)) ∧
    a + (2 * (i : ℚ) + 1) * (b - a) / (2 * (n : ℚ)) ≤ b := by
  have hn : (0 : ℚ) < (n : ℚ) := by
    exact_mod_cast Nat.pos_of_ne_zero (by omega)
  have h2n : (0 : ℚ) < 2 * (n : ℚ) := by linarith
  have hnum : (0 : ℚ) < 2 * (i : ℚ) + 1 := by positivity
  have hip : (i : ℚ) + 1 ≤ (n : ℚ) := by exact_mod_cast hi
  have hba : (0 : ℚ) ≤ b - a := by linarith
  constructor
  · have : 0 ≤ (2 * (i : ℚ) + 1) * (b - a) / (2 * (n : ℚ)) := by positivity
    linarith
  · have : (2 * (i : ℚ) + 1) * (b - a) / (2 * (n : ℚ)) ≤ b - a := by
      rw [div_le_iff₀ h2n]
      nlinarith
    linarith

/-- C6: for a nonempty image shape and a non-degenerate bounding box, a
polygon that exactly covers the full bounding-box extent (its strict
interior is exactly the open box) yields an all-true mask. -/
theorem get_field_pixels_full_cover (img : Image) (bbox : BBox)
    (field : Polygon) (hr : 0 < img.rows) (hc : 0 < img.cols)
    (hx : bbox.min_x < bbox.max_x) (hy : bbox.min_y < bbox.max_y)
    (hfield : ∀ x y : ℚ, field.contains x y = true ↔
      (bbox.min_x < x ∧ x < bbox.max_x ∧ bbox.min_y < y ∧ y < bbox.max_y)) :
    (get_field_pixels img bbox field).all (fun row => row.all id) = true := by
  rw [List.all_eq_true]
  intro row hrow
  simp only [get_field_pixels, List.mem_map, List.mem_range] at hrow
  obtain ⟨i, hi, rfl⟩ := hrow
  rw [List.all_eq_true]
  intro b hb
  simp only [List.mem_map, List.mem_range] at hb
  obtain ⟨j, hj, rfl⟩ := hb
  simp only [id_eq]
  rw [hfield]
  obtain ⟨h1, h2⟩ := center_mem_open hx hi
  obtain ⟨h3, h4⟩ := center_mem_open hy hj
  exact ⟨h1, h2, h3, h4⟩

/-- A polygon whose strict interior is exactly the open unit box, i.e. the
closed unit-square polygon: it exactly covers the extent of `box0`. -/
def polyUnitSquare : Polygon :=
  ⟨fun x y => decide (0 < x ∧ x < 1 ∧ 0 < y ∧ y < 1)⟩

/-- Witness for C6 at the `(1, 1)` image, the unit box and the unit-square
polygon. -/
theorem get_field_pixels_full_cover_witness :
    0 < img1x1.rows ∧ 0 < img1x1.cols ∧
    box0.min_x < box0.max_x ∧ box0.min_y < box0.max_y ∧
    (∀ x y : ℚ, polyUnitSquare.contains x y = true ↔
      (box0.min_x < x ∧ x < box0.max_x ∧ box0.min_y < y ∧ y < box0.max_y)) ∧
    (get_field_pixels img1x1 box0 polyUnitSquare).all
      (fun row => row.all id) = true :=
  ⟨by decide, by decide, by decide, by decide,
    by intro x y; simp [polyUnitSquare, box0, and_assoc],
    get_field_pixels_full_cover img1x1 box0 polyUnitSquare (by decide)
      (by decide) (by decide) (by decide)
      (by intro x y; simp [polyUnitSquare, box0, and_assoc])⟩

/-- C7: a polygon disjoint from the bounding-box extent (its containment
test is false everywhere on the closed box) yields an all-false mask, for
any image shape and any box satisfying the `min ≤ max` invariant. -/
theorem get_field_pixels_outside (img : Image) (bbox : BBox)
    (field : Polygon)
    (hx : bbox.min_x ≤ bbox.max_x) (hy : bbox.min_y ≤ bbox.max_y)
    (hfield : ∀ x y : ℚ, bbox.min_x ≤ x → x ≤ bbox.max_x →
      bbox.min_y ≤ y → y ≤ bbox.max_y → field.contains x y = false) :
    (get_field_pixels img bbox field).all
      (fun row => row.all (fun b => !b)) = true := by
  rw [List.all_eq_true]
  intro row hrow
  simp only [get_field_pixels, List.mem_map, List.mem_range] at hrow
  obtain ⟨i, hi, rfl⟩ := hrow
  rw [List.all_eq_true]
  intro b hb
  simp only [List.mem_map, List.mem_range] at hb
  obtain ⟨j, hj, rfl⟩ := hb
  rw [Bool.not_eq_true']
  obtain ⟨h1, h2⟩ := center_mem_closed hx hi
  obtain ⟨h3, h4⟩ := center_mem_closed hy hj
  exact hfield _ _ h1 h2 h3 h4

/-- A polygon lying wholly in the half-plane `x < 0`, disjoint from the
unit box. -/
def polyLeft : Polygon := ⟨fun x _ => decide (x < 0)⟩

/-- Witness for C7 at the `(1, 1)` image, the unit box and `polyLeft`. -/
theorem get_field_pixels_outside_witness :
    box0.min_x ≤ box0.max_x ∧ box0.min_y ≤ box0.max_y ∧
    (∀ x y : ℚ, box0.min_x ≤ x → x ≤ box0.max_x →
      box0.min_y ≤ y → y ≤ box0.max_y → polyLeft.contains x y = false) ∧
    (get_field_pixels img1x1 box0 polyLeft).all
      (fun row => row.all (fun b => !b)) = true :=
  ⟨by decide, by decide,
    by
      intro x y h1 _ _ _
      simp only [polyLeft, decide_eq_false_iff_not, not_lt]
      exact le_trans (by norm_num [box0]) h1,
    get_field_pixels_outside img1x1 box0 polyLeft (by decide) (by decide)
      (by
        intro x y h1 _ _ _
        simp only [polyLeft, decide_eq_false_iff_not, not_lt]
        exact le_trans (by norm_num [box0]) h1)⟩

/-- C10: the mask depends only on the first two dimensions of the image:
two images with equal `rows` and `cols` yield identical masks for the same
bounding box and polygon, whatever their pixel values or further channel
axes. -/
theorem get_field_pixels_shape_only (img1 img2 : Image) (bbox : BBox)
    (field : Polygon) (hr : img1.rows = img2.rows)
    (hc : img1.cols = img2.cols) :
    get_field_pixels img1 bbox field = get_field_pixels img2 bbox field := by
  simp only [get_field_pixels, hr, hc]

/-- An image of shape `(2, 3)` with all pixels zero and no channel axis. -/
def imgZeros : Image := ⟨2, 3, [], fun _ _ _ => 0⟩

/-- An image of shape `(2, 3, 4)` with all pixels one. -/
def imgOnes : Image := ⟨2, 3, [4], fun _ _ _ => 1⟩

/-- Witness for C10: the two images differ in pixel values and channel
axes but agree on `rows` and `cols`, and the masks coincide. -/
theorem get_field_pixels_shape_only_witness :
    imgZeros.rows = imgOnes.rows ∧ imgZeros.cols = imgOnes.cols ∧
    get_field_pixels imgZeros box0 polyHalf =
      get_field_pixels imgOnes box0 polyHalf :=
  ⟨rfl, rfl, get_field_pixels_shape_only imgZeros imgOnes box0 polyHalf
    rfl rfl⟩
